import Mathlib

/-!
Verification of the Innova trading bot core (candle aggregation, indicators,
signal scoring, risk firewall, position sizing, execution orchestration and
reconnection backoff) against its natural-language specification.

The Python sources are shallowly embedded: floats become `ℚ`, epoch
timestamps become `ℕ`/`ℤ` (whole seconds), `None`-able values become
`Option`, raising code returns `Except`, and stateful objects are passed
explicitly.  Reason strings from the source are represented by inductive
tags, one constructor per distinct source-level reason.
-/

namespace Innova

/-- Python truthiness fallback `x or d` for an optional float `x`:
`None` and `0.0` are falsy, any other value is returned as-is. -/
def pyOrQ (x : Option ℚ) (d : ℚ) : ℚ :=
  match x with
  | none => d
  | some v => if v = 0 then d else v

/-- Python `round` to an integer: round half to even (banker's rounding),
as CPython does for floats. -/
def pyRound (x : ℚ) : ℤ :=
  let f : ℤ := ⌊x⌋
  let d : ℚ := x - f
  if d < 1/2 then f
  else if 1/2 < d then f + 1
  else if f % 2 = 0 then f else f + 1

/-- Python `round(x, 2)`: round to two decimal places, half to even. -/
def pyRound2 (x : ℚ) : ℚ := (pyRound (100 * x) : ℚ) / 100

/-- If `y` lies between two integers `k ≤ m` (scaled), so does its rounding. -/
theorem pyRound_mem_of_le (k m : ℤ) (y : ℚ) (hk : (k : ℚ) ≤ y) (hm : y ≤ (m : ℚ)) :
    k ≤ pyRound y ∧ pyRound y ≤ m := by
  have hfk : k ≤ ⌊y⌋ := Int.le_floor.mpr hk
  have hfm : ⌊y⌋ ≤ m := by
    have := Int.floor_le_floor hm
    simpa using this
  unfold pyRound
  by_cases h1 : y - (⌊y⌋ : ℚ) < 1/2
  · simp only [if_pos h1]
    exact ⟨hfk, hfm⟩
  · -- in the remaining branches the result is ⌊y⌋ or ⌊y⌋ + 1, and y is not an integer
    have hhalf : (1:ℚ)/2 ≤ y - (⌊y⌋ : ℚ) := le_of_not_lt h1
    have hlt : (⌊y⌋ : ℚ) < y := by linarith
    have hfm' : ⌊y⌋ + 1 ≤ m := by
      by_contra hcon
      push_neg at hcon
      have : m ≤ ⌊y⌋ := by omega
      have : (m : ℚ) ≤ (⌊y⌋ : ℚ) := by exact_mod_cast this
      linarith
    simp only [if_neg h1]
    by_cases h2 : 1/2 < y - (⌊y⌋ : ℚ)
    · simp only [if_pos h2]
      constructor
      · omega
      · exact hfm'
    · simp only [if_neg h2]
      by_cases h3 : ⌊y⌋ % 2 = 0
      · simp only [if_pos h3]
        exact ⟨hfk, hfm⟩
      · simp only [if_neg h3]
        exact ⟨by omega, hfm'⟩

/-! ## Market data model (`src/models/market_models.py`) -/

/-- A raw tick from the quote stream. -/
structure Tick where
  symbol : String
  epoch : ℕ
  price : ℚ
  deriving DecidableEq, Repr

/-- An OHLC candle.  `open_time` is the floored epoch of the bucket start
(the Python code stores it as a UTC datetime; `datetime.fromtimestamp` is
strictly monotone on integer epochs, so comparison agrees). -/
structure Candle where
  symbol : String
  timeframe_sec : ℕ
  open_time : ℕ
  open_ : ℚ
  high : ℚ
  low : ℚ
  close : ℚ
  volume : ℕ
  deriving DecidableEq, Repr

/-- The optional indicator set handed to the strategy
(`Indicators` dataclass). -/
structure Indicators where
  ema_fast : Option ℚ := none
  ema_slow : Option ℚ := none
  atr : Option ℚ := none
  rsi : Option ℚ := none
  deriving DecidableEq, Repr

/-! ## Candle aggregation (`src/services/market/candle_builder.py`) -/

/-- `_floor_time`: floor an epoch to the bucket start for `timeframe_sec`. -/
def floorTime (epoch timeframe_sec : ℕ) : ℕ := epoch - epoch % timeframe_sec

/-- State of a `CandleBuilder`: symbol, timeframe and the open candle slot. -/
structure CandleBuilder where
  symbol : String
  timeframe_sec : ℕ
  current : Option Candle := none
  deriving DecidableEq, Repr

/-- Fresh builder with an empty open-candle slot. -/
def CandleBuilder.init (symbol : String) (timeframe_sec : ℕ) : CandleBuilder :=
  ⟨symbol, timeframe_sec, none⟩

/-- `CandleBuilder.update_with_tick`: returns the updated builder and the
candle closed by this tick, if any.  The closed-candle callback of the
source merely forwards the returned candle downstream (exceptions in it are
swallowed), so it is not part of the state transition. -/
def CandleBuilder.update_with_tick (b : CandleBuilder) (t : Tick) :
    CandleBuilder × Option Candle :=
  if t.symbol ≠ b.symbol then (b, none)
  else
    let open_time := floorTime t.epoch b.timeframe_sec
    match b.current with
    | none =>
        ({ b with current := some (Candle.mk b.symbol b.timeframe_sec open_time
            t.price t.price t.price t.price 1) },
         none)
    | some cur =>
        if cur.open_time < open_time then
          ({ b with current := some (Candle.mk b.symbol b.timeframe_sec open_time
              t.price t.price t.price t.price 1) },
           some cur)
        else
          let cur2 := { cur with
            close := t.price
            high := max cur.high t.price
            low := min cur.low t.price
            volume := cur.volume + 1 }
          ({ b with current := some cur2 }, none)

/-- Feed a list of ticks through the builder, collecting closed candles in
emission order. -/
def processTicks (b : CandleBuilder) (ts : List Tick) : CandleBuilder × List Candle :=
  ts.foldl
    (fun acc t =>
      let r := CandleBuilder.update_with_tick acc.1 t
      (r.1, acc.2 ++ r.2.toList))
    (b, [])

/-! ## Risk firewall (`src/services/risk/risk_firewall.py`) -/

/-- Snapshot of account/risk state at decision time.
`last_trade_closed_at` models `last_trade_closed_at_iso` as an epoch second
(`none` covers both `None` and the falsy empty string). -/
structure RiskSnapshot where
  balance : ℚ
  equity : ℚ
  peak_equity : ℚ
  daily_pnl : ℚ
  trades_today : ℕ
  consecutive_losses : ℕ
  last_trade_closed_at : Option ℤ := none
  deriving DecidableEq, Repr

/-- Reason tags of `RiskFirewall.check`, one per source-level reason string. -/
inductive RiskReason where
  | invalid_peak_equity
  | max_drawdown_total_reached
  | max_loss_daily_reached
  | max_trades_daily_reached
  | cooldown_after_consecutive_losses
  | max_consecutive_losses_reached
  | risk_ok
  deriving DecidableEq, Repr

/-- Decision record of the firewall. -/
structure RiskDecision where
  allowed : Bool
  reason : RiskReason
  cooldown_remaining_sec : ℤ := 0
  deriving DecidableEq, Repr

/-- Configuration of the firewall (constructor arguments). -/
structure RiskFirewall where
  max_drawdown_total : ℚ
  max_loss_daily : ℚ
  max_trades_daily : ℕ
  max_consecutive_losses : ℕ
  cooldown_minutes : ℕ
  deriving DecidableEq, Repr

/-- `RiskFirewall.check`.  `daily_start_equity` is the state value
`_daily_start_equity` after `reset_daily_if_needed` (never `None` there),
and `now` is `utc_now()` in epoch seconds; timestamps are modeled at whole
second granularity, under which Python's `int()` truncation is the
identity. -/
def RiskFirewall.check (fw : RiskFirewall) (daily_start_equity : ℚ) (now : ℤ)
    (s : RiskSnapshot) : RiskDecision :=
  if s.peak_equity ≤ 0 then ⟨false, .invalid_peak_equity, 0⟩
  else
    let dd := (s.peak_equity - s.equity) / s.peak_equity
    if fw.max_drawdown_total ≤ dd then ⟨false, .max_drawdown_total_reached, 0⟩
    else
      let daily_loss := (daily_start_equity - s.equity) / max daily_start_equity (1/1000000000)
      if fw.max_loss_daily ≤ daily_loss then ⟨false, .max_loss_daily_reached, 0⟩
      else if fw.max_trades_daily ≤ s.trades_today then ⟨false, .max_trades_daily_reached, 0⟩
      else if fw.max_consecutive_losses ≤ s.consecutive_losses then
        match s.last_trade_closed_at with
        | some last =>
            let elapsed : ℤ := now - last
            let remaining : ℤ := max 0 ((fw.cooldown_minutes : ℤ) * 60 - elapsed)
            if 0 < remaining then ⟨false, .cooldown_after_consecutive_losses, remaining⟩
            else ⟨false, .max_consecutive_losses_reached, 0⟩
        | none => ⟨false, .max_consecutive_losses_reached, 0⟩
      else ⟨true, .risk_ok, 0⟩

/-! ## Position sizer (`src/services/risk/position_sizer.py`) -/

/-- Reason tags of `PositionSizer.compute`. -/
inductive SizeReason where
  | invalid_balance
  | score_too_low
  | size_ok
  deriving DecidableEq, Repr

/-- Result of `PositionSizer.compute`. -/
structure SizeDecision where
  allowed : Bool
  stake : ℚ
  risk_percent : ℚ
  reason : SizeReason
  deriving DecidableEq, Repr

/-- Configuration of the sizer (constructor arguments). -/
structure PositionSizer where
  min_stake : ℚ
  max_stake : ℚ
  risk_base : ℚ
  risk_high : ℚ
  risk_cap : ℚ
  score_high : ℚ := 0.75
  score_min : ℚ := 0.55
  deriving DecidableEq, Repr

/-- `PositionSizer.compute`: interpolate a risk percentage from the score,
cap it, multiply by balance, clamp to the stake range, round to cents. -/
def PositionSizer.compute (p : PositionSizer) (balance score : ℚ) : SizeDecision :=
  if balance ≤ 0 then ⟨false, 0, 0, .invalid_balance⟩
  else if score < p.score_min then ⟨false, 0, 0, .score_too_low⟩
  else
    let risk_pct :=
      if p.score_high ≤ score then min p.risk_high p.risk_cap
      else
        let t := (score - p.score_min) / max (p.score_high - p.score_min) (1/1000000000)
        min (p.risk_base + t * (p.risk_high - p.risk_base)) p.risk_cap
    let stake := balance * risk_pct
    let stake2 := max p.min_stake (min p.max_stake stake)
    ⟨true, pyRound2 stake2, risk_pct, .size_ok⟩

/-! ## Signal scorer (`src/services/strategy/trend_pullback.py`) -/

/-- Signal direction: `"CALL" | "PUT" | "NONE"` in the source. -/
inductive Side where
  | CALL
  | PUT
  | NONE
  deriving DecidableEq, Repr

/-- Reason tags of `TrendPullbackStrategy.generate`, one per source string. -/
inductive SignalReason where
  | indicators_not_ready
  | invalid_price
  | no_trend
  | atr_too_low
  | ema_spread_too_low
  | rsi_overbought_skip
  | rsi_oversold_skip
  | rsi_not_in_long_zone
  | rsi_not_in_short_zone
  | signal_ok
  deriving DecidableEq, Repr

/-- A strategy signal. -/
structure Signal where
  side : Side
  score : ℚ
  reason : SignalReason
  deriving DecidableEq, Repr

/-- Configuration of the strategy (constructor arguments); zones are
`(lo, hi)` pairs. -/
structure TrendPullbackStrategy where
  min_atr_pct : ℚ := 0.001
  min_ema_spread_pct : ℚ := 0.0005
  rsi_long_zone : ℚ × ℚ := (45, 60)
  rsi_short_zone : ℚ × ℚ := (40, 55)
  rsi_overbought : ℚ := 70
  rsi_oversold : ℚ := 30
  deriving DecidableEq, Repr

/-- `TrendPullbackStrategy.generate`: gate in source order, then score. -/
def TrendPullbackStrategy.generate (st : TrendPullbackStrategy) (candle : Candle)
    (ind : Indicators) : Signal :=
  match ind.ema_fast, ind.ema_slow, ind.atr, ind.rsi with
  | some ema_fast, some ema_slow, some atr, some rsi =>
      let price := candle.close
      if price ≤ 0 then ⟨.NONE, 0, .invalid_price⟩
      else if ¬(ema_slow < ema_fast ∨ ema_fast < ema_slow) then ⟨.NONE, 0, .no_trend⟩
      else
        let atr_pct := atr / price
        if atr_pct < st.min_atr_pct then ⟨.NONE, 0, .atr_too_low⟩
        else
          let ema_spread_pct := |ema_fast - ema_slow| / price
          if ema_spread_pct < st.min_ema_spread_pct then ⟨.NONE, 0, .ema_spread_too_low⟩
          else if st.rsi_overbought ≤ rsi ∧ ema_slow < ema_fast then
            ⟨.NONE, 0, .rsi_overbought_skip⟩
          else if rsi ≤ st.rsi_oversold ∧ ema_fast < ema_slow then
            ⟨.NONE, 0, .rsi_oversold_skip⟩
          else
            let zone := if ema_slow < ema_fast then st.rsi_long_zone else st.rsi_short_zone
            if ema_slow < ema_fast ∧ ¬(zone.1 ≤ rsi ∧ rsi ≤ zone.2) then
              ⟨.NONE, 0, .rsi_not_in_long_zone⟩
            else if ¬(ema_slow < ema_fast) ∧ ¬(zone.1 ≤ rsi ∧ rsi ≤ zone.2) then
              ⟨.NONE, 0, .rsi_not_in_short_zone⟩
            else
              let side := if ema_slow < ema_fast then Side.CALL else Side.PUT
              let trend_strength := min 1 (ema_spread_pct / (st.min_ema_spread_pct * 4))
              let vol_strength := min 1 (atr_pct / (st.min_atr_pct * 4))
              let zone_mid := (zone.1 + zone.2) / 2
              let zone_half := max ((zone.2 - zone.1) / 2) (1/1000000000)
              let rsi_score := max 0 (1 - |rsi - zone_mid| / zone_half)
              let score := 0.45 * trend_strength + 0.35 * rsi_score + 0.20 * vol_strength
              ⟨side, max 0 (min 1 score), .signal_ok⟩
  | _, _, _, _ => ⟨.NONE, 0, .indicators_not_ready⟩

/-- The score exactly as the specification words it: `0.45·min(1,
emaSpreadPct/(4·emaSpreadFloor)) + 0.35·max(0, 1 − |rsi −
zoneMidpoint|/zoneHalfWidth) + 0.20·min(1, atrPct/(4·atrFloor))`, where the
zone is the one matching the trend direction.  Stated from the spec's words
for comparison against `TrendPullbackStrategy.generate`. -/
def specScore (st : TrendPullbackStrategy) (price ema_fast ema_slow atr rsi : ℚ) : ℚ :=
  let zone := if ema_slow < ema_fast then st.rsi_long_zone else st.rsi_short_zone
  let emaSpreadPct := |ema_fast - ema_slow| / price
  let atrPct := atr / price
  let zoneMidpoint := (zone.1 + zone.2) / 2
  let zoneHalfWidth := (zone.2 - zone.1) / 2
  0.45 * min 1 (emaSpreadPct / (4 * st.min_ema_spread_pct))
    + 0.35 * max 0 (1 - |rsi - zoneMidpoint| / zoneHalfWidth)
    + 0.20 * min 1 (atrPct / (4 * st.min_atr_pct))

/-! ## Indicator engine (`src/services/market/indicators.py`) -/

/-- `_ema`: seed with the value, then exponential smoothing. -/
def emaStep (prev : Option ℚ) (value : ℚ) (period : ℕ) : ℚ :=
  let alpha : ℚ := 2 / ((period : ℚ) + 1)
  match prev with
  | none => value
  | some p => alpha * value + (1 - alpha) * p

/-- Mutable state of `IndicatorEngine` (periods plus running values). -/
structure IndicatorEngine where
  ema_fast_period : ℕ := 20
  ema_slow_period : ℕ := 50
  atr_period : ℕ := 14
  rsi_period : ℕ := 14
  bars : ℕ := 0
  ema_fast : Option ℚ := none
  ema_slow : Option ℚ := none
  prev_close : Option ℚ := none
  atr : Option ℚ := none
  avg_gain : Option ℚ := none
  avg_loss : Option ℚ := none
  deriving DecidableEq, Repr

/-- Fresh engine for the given periods. -/
def IndicatorEngine.init (fp sp ap rp : ℕ) : IndicatorEngine :=
  { ema_fast_period := fp, ema_slow_period := sp, atr_period := ap, rsi_period := rp }

/-- `_validate_periods`: `update` raises `ValueError` unless all periods
exceed 1; theorems assume this validity. -/
def IndicatorEngine.validPeriods (e : IndicatorEngine) : Prop :=
  1 < e.ema_fast_period ∧ 1 < e.ema_slow_period ∧ 1 < e.atr_period ∧ 1 < e.rsi_period

/-- True range: `high − low` on the first bar, else
`max(high−low, |high−prevClose|, |low−prevClose|)`. -/
def trueRange (prev_close : Option ℚ) (high low : ℚ) : ℚ :=
  match prev_close with
  | none => high - low
  | some pc => max (high - low) (max |high - pc| |low - pc|)

/-- Wilder smoothing, seeded with the first observation:
`x` if no previous average, else `(prev·(period−1) + x) / period`. -/
def wilderAvg (prev : Option ℚ) (x : ℚ) (period : ℕ) : ℚ :=
  match prev with
  | none => x
  | some v => (v * ((period : ℚ) - 1) + x) / (period : ℚ)

/-- Close-to-close change, zero on the first bar. -/
def closeChange (prev_close : Option ℚ) (close : ℚ) : ℚ :=
  match prev_close with
  | none => 0
  | some pc => close - pc

/-- The RSI value computed by `update` from the already-smoothed averages:
neutral 50 during warm-up, 100 on zero average loss, else
`100 − 100/(1 + avgGain/max(avgLoss, 1e-12))`. -/
def rsiFromAvgs (bars period : ℕ) (avg_gain avg_loss : ℚ) : ℚ :=
  if bars < period then 50
  else
    if avg_loss = 0 then 100
    else
      let rs := avg_gain / max avg_loss (1/1000000000000)
      100 - 100 / (1 + rs)

/-- `IndicatorEngine.update` on one closed candle: returns the new engine
state and the `Indicators` record handed downstream. -/
def IndicatorEngine.update (e : IndicatorEngine) (candle : Candle) :
    IndicatorEngine × Indicators :=
  let bars := e.bars + 1
  let close := candle.close
  let ema_fast := emaStep e.ema_fast close e.ema_fast_period
  let ema_slow := emaStep e.ema_slow close e.ema_slow_period
  let tr := trueRange e.prev_close candle.high candle.low
  let atr := wilderAvg e.atr tr e.atr_period
  let change := closeChange e.prev_close close
  let gain := max change 0
  let loss := max (-change) 0
  let avg_gain := wilderAvg e.avg_gain gain e.rsi_period
  let avg_loss := wilderAvg e.avg_loss loss e.rsi_period
  let rsi := rsiFromAvgs bars e.rsi_period avg_gain avg_loss
  ({ e with
      bars := bars
      ema_fast := some ema_fast
      ema_slow := some ema_slow
      prev_close := some close
      atr := some atr
      avg_gain := some avg_gain
      avg_loss := some avg_loss },
   ⟨some ema_fast, some ema_slow, some atr, some rsi⟩)

/-- Feed a list of candles through the engine (state only). -/
def IndicatorEngine.runCandles (e : IndicatorEngine) (cs : List Candle) : IndicatorEngine :=
  cs.foldl (fun e c => (e.update c).1) e

/-! ## Reconnection backoff (`DerivWSClient._run_forever`) -/

/-- Outcome of one `_connect_and_run` attempt:
`connectFailed` — it raised before the connected event was set (socket or
auth failure); `connectedThenError` — authorization succeeded and the
connected event was set, but the session later ended by raising (reader or
heartbeat failure); `connectedClean` — it returned without raising. -/
inductive ConnOutcome where
  | connectFailed
  | connectedThenError
  | connectedClean
  deriving DecidableEq, Repr

/-- Delays slept by `_run_forever`, given the per-attempt outcomes and the
jitter draws `r = random.random() ∈ [0,1)`.  `backoff` is reset to 1 only
when `_connect_and_run` returns without raising; the jitter uses the
possibly-reset value, the sleep is capped at `max_backoff`, then the
backoff doubles (also capped). -/
def runForeverDelays (max_backoff : ℚ) : ℚ → List (ConnOutcome × ℚ) → List ℚ
  | _, [] => []
  | backoff, (o, r) :: rest =>
      let b1 := match o with
        | ConnOutcome.connectedClean => (1 : ℚ)
        | _ => backoff
      let jitter := r * 0.3 * b1
      let sleep_for := min max_backoff (b1 + jitter)
      sleep_for :: runForeverDelays max_backoff (min max_backoff (b1 * 2)) rest

/-! ## Trade queue and execution worker (`src/app/engine.py`) -/

/-- A trade intent as enqueued by the engine loop. -/
structure TradeIntent where
  symbol : String
  side : Side
  score : ℚ
  stake : ℚ
  reason : SignalReason
  entry_price : ℚ
  take_profit_usd : Option ℚ := none
  stop_loss_usd : Option ℚ := none
  deriving DecidableEq, Repr

/-- `asyncio.QueueFull`, raised by `put_nowait` on a full queue. -/
inductive QueueFull where
  | queueFull
  deriving DecidableEq, Repr

/-- An `asyncio.Queue`: bounded item list plus the unfinished-task counter
(`puts` minus successful `task_done` calls). -/
structure TQueue (α : Type) where
  maxsize : ℕ
  items : List α
  unfinished : ℕ
  deriving DecidableEq, Repr

/-- `Queue.full`: a queue with `maxsize ≤ 0` is never full. -/
def TQueue.full {α : Type} (q : TQueue α) : Bool :=
  if q.maxsize = 0 then false else q.maxsize ≤ q.items.length

/-- `Queue.put_nowait`: raise `QueueFull` when full, else append and bump
the unfinished counter.  It never suspends the caller. -/
def TQueue.put_nowait {α : Type} (q : TQueue α) (x : α) : Except QueueFull (TQueue α) :=
  if q.full then .error .queueFull
  else .ok { q with items := q.items ++ [x], unfinished := q.unfinished + 1 }

/-- The enqueue fragment of `on_candle` / `run_timer`:
`try: put_nowait(intent) except QueueFull: log` — returns the resulting
queue and whether the intent was dropped (and logged). -/
def enqueueIntent (q : TQueue TradeIntent) (x : TradeIntent) : TQueue TradeIntent × Bool :=
  match q.put_nowait x with
  | .ok q2 => (q2, false)
  | .error _ => (q, true)

/-- `ValueError`, as raised by `Queue.task_done` when called more times
than there were items placed in the queue. -/
inductive PyExc where
  | valueError
  deriving DecidableEq, Repr

/-- `Queue.task_done` on the unfinished counter. -/
def queueTaskDone (u : ℕ) : Except PyExc ℕ :=
  if u = 0 then .error .valueError else .ok (u - 1)

/-- Environment of one `trade_worker` iteration: the kill-switch state, the
fresh risk-firewall decision, the dry-run flag and the outcome of the
brokerage execution (profit on success, error text on failure). -/
structure WorkerCtx where
  killswitch_enabled : Bool
  risk_allowed : Bool
  dry_run : Bool
  exec_result : Except String ℚ
  deriving Repr

/-- State shared by the worker across iterations: the queue's unfinished
counter, the single-flight guard, and the ledger rows (speculative "open"
rows and finalized closed rows). -/
structure WorkerState where
  unfinished : ℕ
  in_flight : Bool
  open_rows : ℕ
  closed_rows : ℕ
  deriving DecidableEq, Repr

/-- The `finally` block of the worker loop body: clear the in-flight guard,
then `task_done`; an exception here escapes the `while True` loop. -/
def workerFinally (st : WorkerState) : Except PyExc WorkerState :=
  let st2 := { st with in_flight := false }
  match queueTaskDone st2.unfinished with
  | .ok u => .ok { st2 with unfinished := u }
  | .error e => .error e

/-- One iteration of `trade_worker` after `await trade_queue.get()`:
mirrors the `try/except Exception/finally` body.  A `.error` result is an
exception escaping the loop body (killing the worker task); `.ok` means the
worker proceeds to the next queued intent. -/
def tradeWorkerIteration (ctx : WorkerCtx) (st : WorkerState) : Except PyExc WorkerState :=
  if ctx.killswitch_enabled then workerFinally st
  else if ctx.risk_allowed = false then workerFinally st
  else if st.in_flight then workerFinally st
  else
    let st1 := { st with in_flight := true }
    if ctx.dry_run then
      -- dry-run skip: log, clear the guard, explicit `task_done`, `continue`;
      -- the `finally` block then runs `task_done` a second time
      let st2 := { st1 with in_flight := false }
      match queueTaskDone st2.unfinished with
      | .ok u => workerFinally { st2 with unfinished := u }
      | .error _ => workerFinally st2   -- caught by `except Exception`, then `finally`
    else
      -- persist the speculative "open" trade row, then execute
      let st2 := { st1 with open_rows := st1.open_rows + 1 }
      match ctx.exec_result with
      | .ok _profit =>
          workerFinally { st2 with open_rows := st2.open_rows - 1,
                                   closed_rows := st2.closed_rows + 1 }
      | .error _ =>
          -- `except Exception`: delete the speculative row (rollback), log
          workerFinally { st2 with open_rows := st2.open_rows - 1 }

/-! ## Order executor (`src/services/execution/order_executor.py`) -/

/-- Terminal result of the execution state machine. -/
structure ExecutedTrade where
  contract_id : ℤ
  profit : ℚ
  buy_price : ℚ
  payout : ℚ
  is_win : Bool
  deriving DecidableEq, Repr

/-- Errors raised by `execute_rise_fall` / `execute_multiplier`. -/
inductive ExecErr where
  | proposal_error
  | proposal_missing_id
  | buy_error
  | buy_missing_contract_id
  | poc_error
  | contract_wait_timeout
  deriving DecidableEq, Repr

/-- Brokerage response to the proposal request: an error body, or a
proposal id (`none` also covers a falsy/missing id). -/
structure ProposalResp where
  error : Bool
  proposal_id : Option ℕ
  deriving DecidableEq, Repr

/-- Brokerage response to the buy request. -/
structure BuyResp where
  error : Bool
  contract_id : Option ℤ
  buy_price : Option ℚ
  deriving DecidableEq, Repr

/-- One `proposal_open_contract` poll response: settled data or an error. -/
structure PocData where
  is_sold : Bool
  profit : Option ℚ
  payout : Option ℚ
  deriving DecidableEq, Repr

/-- A poll exchange is either an error body or contract data. -/
inductive PocResp where
  | err
  | data (d : PocData)
  deriving DecidableEq, Repr

/-- The settlement poll loop shared by both contract kinds: one list
element per poll round; an exhausted list is the `timeout_sec` elapsing. -/
def pollContract (contract_id : ℤ) (buy_price : ℚ) : List PocResp → Except ExecErr ExecutedTrade
  | [] => .error .contract_wait_timeout
  | PocResp.err :: _ => .error .poc_error
  | PocResp.data d :: rest =>
      if d.is_sold then
        let profit := pyOrQ d.profit 0
        let payout := pyOrQ d.payout 0
        .ok ⟨contract_id, profit, buy_price, payout, decide (0 < profit)⟩
      else pollContract contract_id buy_price rest

/-- `OrderExecutor.execute_rise_fall`: propose, buy, poll until settled.
The brokerage responses are supplied as parameters. -/
def OrderExecutor.execute_rise_fall (stake : ℚ) (proposal : ProposalResp) (buy : BuyResp)
    (polls : List PocResp) : Except ExecErr ExecutedTrade :=
  if proposal.error then .error .proposal_error
  else
    match proposal.proposal_id with
    | none => .error .proposal_missing_id
    | some _pid =>
        if buy.error then .error .buy_error
        else
          match buy.contract_id with
          | none => .error .buy_missing_contract_id
          | some cid =>
              let buy_price := pyOrQ buy.buy_price stake
              pollContract cid buy_price polls

/-- The `limit_order` payload of a multiplier proposal:
`int(round(max(0.01, x)))` for take-profit and stop-loss. -/
def multiplierLimitOrder (take_profit_usd stop_loss_usd : ℚ) : ℤ × ℤ :=
  (pyRound (max 0.01 take_profit_usd), pyRound (max 0.01 stop_loss_usd))

/-- `OrderExecutor.execute_multiplier`: like `execute_rise_fall` but for a
MULTUP/MULTDOWN contract whose buy carries the limit order.  The duration
conversion and limit order shape the request; the settled result is
computed identically. -/
def OrderExecutor.execute_multiplier (side : Side) (stake take_profit_usd stop_loss_usd : ℚ)
    (proposal : ProposalResp) (buy : BuyResp) (polls : List PocResp) :
    Except ExecErr ExecutedTrade :=
  let _contract_type := if side = Side.CALL then "MULTUP" else "MULTDOWN"
  let _limit_order := multiplierLimitOrder take_profit_usd stop_loss_usd
  if proposal.error then .error .proposal_error
  else
    match proposal.proposal_id with
    | none => .error .proposal_missing_id
    | some _pid =>
        if buy.error then .error .buy_error
        else
          match buy.contract_id with
          | none => .error .buy_missing_contract_id
          | some cid =>
              let buy_price := pyOrQ buy.buy_price stake
              pollContract cid buy_price polls

/-! ## Theorems: risk firewall (C3, C9) -/

/-- `check` allows exactly when all five limits pass. -/
theorem check_allowed_iff (fw : RiskFirewall) (ds : ℚ) (now : ℤ) (s : RiskSnapshot) :
    (fw.check ds now s).allowed = true ↔
      (0 < s.peak_equity ∧
       (s.peak_equity - s.equity) / s.peak_equity < fw.max_drawdown_total ∧
       (ds - s.equity) / max ds (1/1000000000) < fw.max_loss_daily ∧
       s.trades_today < fw.max_trades_daily ∧
       s.consecutive_losses < fw.max_consecutive_losses) := by
  unfold RiskFirewall.check
  by_cases h1 : s.peak_equity ≤ 0
  · simp [one_div, h1, not_lt.mpr h1]
  have h1' : 0 < s.peak_equity := not_le.mp h1
  by_cases h2 : fw.max_drawdown_total ≤ (s.peak_equity - s.equity) / s.peak_equity
  · simp [one_div, h1, h2, not_lt.mpr h2]
  by_cases h3 : fw.max_loss_daily ≤ (ds - s.equity) / max ds ((1000000000 : ℚ)⁻¹)
  · simp [one_div, h1, h2, h3, not_lt.mpr h3, h1']
  by_cases h4 : fw.max_trades_daily ≤ s.trades_today
  · simp [one_div, h1, h2, h3, h4, not_lt.mpr h4, h1']
  by_cases h5 : fw.max_consecutive_losses ≤ s.consecutive_losses
  · rcases hl : s.last_trade_closed_at with _ | last
    · simp [one_div, h1, h2, h3, h4, h5, hl, not_lt.mpr h5, h1']
    · simp only [one_div, h1, h2, h3, h4, h5, hl, if_false, if_true, if_neg, if_pos,
        eq_self_iff_true]
      split_ifs <;> simp [not_lt.mpr h5, h1', not_le.mp h2, not_le.mp h3, not_le.mp h4]
  · simp [one_div, h1, h2, h3, h4, h5, not_le.mp h2, not_le.mp h3, not_le.mp h4,
      not_le.mp h5, h1']

/-- C3: with the four earlier limits passing and consecutive losses at or
over the maximum, `check` rejects; the decision carries the remaining
cooldown `cooldownMinutes·60 − elapsed` when that is positive, and the
generic consecutive-loss reason otherwise. -/
theorem risk_firewall_consecutive_loss_cooldown
    (fw : RiskFirewall) (ds : ℚ) (now last : ℤ) (s : RiskSnapshot)
    (h1 : 0 < s.peak_equity)
    (h2 : (s.peak_equity - s.equity) / s.peak_equity < fw.max_drawdown_total)
    (h3 : (ds - s.equity) / max ds (1/1000000000) < fw.max_loss_daily)
    (h4 : s.trades_today < fw.max_trades_daily)
    (h5 : fw.max_consecutive_losses ≤ s.consecutive_losses)
    (h6 : s.last_trade_closed_at = some last) :
    (0 < (fw.cooldown_minutes : ℤ) * 60 - (now - last) →
      fw.check ds now s =
        ⟨false, .cooldown_after_consecutive_losses,
         (fw.cooldown_minutes : ℤ) * 60 - (now - last)⟩) ∧
    ((fw.cooldown_minutes : ℤ) * 60 - (now - last) ≤ 0 →
      fw.check ds now s = ⟨false, .max_consecutive_losses_reached, 0⟩) := by
  have hp : ¬ s.peak_equity ≤ 0 := not_le.mpr h1
  have hdd : ¬ fw.max_drawdown_total ≤ (s.peak_equity - s.equity) / s.peak_equity :=
    not_le.mpr h2
  have hdl : ¬ fw.max_loss_daily ≤ (ds - s.equity) / max ds (1/1000000000) := not_le.mpr h3
  have htr : ¬ fw.max_trades_daily ≤ s.trades_today := not_le.mpr h4
  constructor
  · intro hrem
    have hmax : max 0 ((fw.cooldown_minutes : ℤ) * 60 - (now - last)) =
        (fw.cooldown_minutes : ℤ) * 60 - (now - last) := max_eq_right (le_of_lt hrem)
    simp only [RiskFirewall.check, if_neg hp, if_neg hdd, if_neg hdl, if_neg htr,
      if_pos h5, h6, hmax, if_pos hrem]
  · intro hrem
    have hmax : max 0 ((fw.cooldown_minutes : ℤ) * 60 - (now - last)) = 0 :=
      max_eq_left hrem
    have hnot : ¬ (0 : ℤ) < 0 := lt_irrefl 0
    simp only [RiskFirewall.check, if_neg hp, if_neg hdd, if_neg hdl, if_neg htr,
      if_pos h5, h6, hmax, if_neg hnot]

/-- C3 witness: the spec scenario — losses 5 ≥ max 5, last close 600 s ago,
30-minute cooldown — rejects with 1200 s remaining. -/
theorem risk_firewall_consecutive_loss_cooldown_witness :
    RiskFirewall.check ⟨0.10, 0.10, 10, 5, 30⟩ 1000 600 ⟨1000, 1000, 1000, 0, 0, 5, some 0⟩ =
      ⟨false, .cooldown_after_consecutive_losses, 1200⟩ := by
  have h := risk_firewall_consecutive_loss_cooldown ⟨0.10, 0.10, 10, 5, 30⟩ 1000 600 0
    ⟨1000, 1000, 1000, 0, 0, 5, some 0⟩ (by norm_num) (by norm_num) (by norm_num)
    (by norm_num) (by norm_num) rfl
  have h2 := h.1 (by norm_num)
  norm_num at h2 ⊢
  exact h2

/-- C9: rejection is monotone in consecutive losses — raising
`consecutive_losses` with every other field fixed never turns a rejected
snapshot into an allowed one. -/
theorem risk_firewall_monotone_in_losses
    (fw : RiskFirewall) (ds : ℚ) (now : ℤ) (s : RiskSnapshot) (l2 : ℕ)
    (hrej : (fw.check ds now s).allowed = false)
    (hlt : s.consecutive_losses < l2) :
    (fw.check ds now { s with consecutive_losses := l2 }).allowed = false := by
  by_contra hcon
  have hall : (fw.check ds now { s with consecutive_losses := l2 }).allowed = true :=
    Bool.not_eq_false _ ▸ eq_true_of_ne_false hcon
  have hc := (check_allowed_iff fw ds now { s with consecutive_losses := l2 }).mp hall
  simp only at hc
  have horig : (fw.check ds now s).allowed = true :=
    (check_allowed_iff fw ds now s).mpr
      ⟨hc.1, hc.2.1, hc.2.2.1, hc.2.2.2.1, lt_trans hlt hc.2.2.2.2⟩
  rw [horig] at hrej
  cases hrej

/-- C9 witness: a snapshot rejected for hitting the trade count stays
rejected with one more consecutive loss. -/
theorem risk_firewall_monotone_in_losses_witness :
    (RiskFirewall.check ⟨0.10, 0.10, 3, 5, 30⟩ 1000 600
      ⟨1000, 1000, 1000, 0, 3, 2, none⟩).allowed = false := by
  exact risk_firewall_monotone_in_losses ⟨0.10, 0.10, 3, 5, 30⟩ 1000 600
    ⟨1000, 1000, 1000, 0, 3, 1, none⟩ 2
    (by norm_num [RiskFirewall.check]) (by norm_num)

/-! ## Theorems: position sizer (C5) -/

/-- C5: whenever `compute` allows — which requires a positive balance and a
score at or above the minimum threshold — the stake is clamped into
`[min_stake, max_stake]` and the risk percentage never exceeds the cap.
The stake bounds use that the configured stakes are whole cents, so the
final cent rounding cannot leave the interval. -/
theorem position_sizer_stake_in_range (p : PositionSizer) (balance score : ℚ)
    (hms : p.min_stake ≤ p.max_stake)
    (k1 k2 : ℤ) (hk1 : p.min_stake = (k1 : ℚ) / 100) (hk2 : p.max_stake = (k2 : ℚ) / 100)
    (hallow : (p.compute balance score).allowed = true) :
    (0 < balance ∧ p.score_min ≤ score) ∧
    p.min_stake ≤ (p.compute balance score).stake ∧
    (p.compute balance score).stake ≤ p.max_stake ∧
    (p.compute balance score).risk_percent ≤ p.risk_cap := by
  by_cases hb : balance ≤ 0
  · exfalso
    simp [PositionSizer.compute, hb] at hallow
  by_cases hs : score < p.score_min
  · exfalso
    simp [PositionSizer.compute, hb, hs] at hallow
  have hcomp : p.compute balance score =
      ⟨true,
       pyRound2 (max p.min_stake (min p.max_stake (balance *
         (if p.score_high ≤ score then min p.risk_high p.risk_cap
          else min (p.risk_base + ((score - p.score_min) /
              max (p.score_high - p.score_min) (1/1000000000)) *
              (p.risk_high - p.risk_base)) p.risk_cap)))),
       (if p.score_high ≤ score then min p.risk_high p.risk_cap
        else min (p.risk_base + ((score - p.score_min) /
            max (p.score_high - p.score_min) (1/1000000000)) *
            (p.risk_high - p.risk_base)) p.risk_cap),
       .size_ok⟩ := by
    simp only [PositionSizer.compute, if_neg hb, if_neg hs]
  rw [hcomp]
  set rp : ℚ :=
    (if p.score_high ≤ score then min p.risk_high p.risk_cap
     else min (p.risk_base + ((score - p.score_min) /
         max (p.score_high - p.score_min) (1/1000000000)) *
         (p.risk_high - p.risk_base)) p.risk_cap) with hrp
  have hrcap : rp ≤ p.risk_cap := by
    rw [hrp]
    split_ifs <;> exact min_le_right _ _
  have hlow : p.min_stake ≤ max p.min_stake (min p.max_stake (balance * rp)) :=
    le_max_left _ _
  have hhigh : max p.min_stake (min p.max_stake (balance * rp)) ≤ p.max_stake :=
    max_le hms (min_le_left _ _)
  have hkb : (k1 : ℚ) ≤ 100 * max p.min_stake (min p.max_stake (balance * rp)) := by
    have : (k1 : ℚ) = 100 * p.min_stake := by rw [hk1]; ring
    rw [this]
    linarith
  have hkt : 100 * max p.min_stake (min p.max_stake (balance * rp)) ≤ (k2 : ℚ) := by
    have : (k2 : ℚ) = 100 * p.max_stake := by rw [hk2]; ring
    rw [this]
    linarith
  have hr := pyRound_mem_of_le k1 k2 _ hkb hkt
  have hcast1 : (k1 : ℚ) ≤
      (pyRound (100 * max p.min_stake (min p.max_stake (balance * rp))) : ℚ) := by
    exact_mod_cast hr.1
  have hcast2 : (pyRound (100 * max p.min_stake (min p.max_stake (balance * rp))) : ℚ) ≤
      (k2 : ℚ) := by
    exact_mod_cast hr.2
  have hlo : (k1 : ℚ) / 100 ≤ pyRound2 (max p.min_stake (min p.max_stake (balance * rp))) := by
    unfold pyRound2
    linarith
  have hhi : pyRound2 (max p.min_stake (min p.max_stake (balance * rp))) ≤ (k2 : ℚ) / 100 := by
    unfold pyRound2
    linarith
  rw [← hk1] at hlo
  rw [← hk2] at hhi
  exact ⟨⟨not_le.mp hb, not_lt.mp hs⟩, hlo, hhi, hrcap⟩

/-- C5 witness: a standard cent-valued configuration at balance 1000 and
score 0.8 yields a stake inside the configured range. -/
theorem position_sizer_stake_in_range_witness :
    (PositionSizer.mk 0.35 20 0.01 0.02 0.05 0.75 0.55).min_stake ≤
      ((PositionSizer.mk 0.35 20 0.01 0.02 0.05 0.75 0.55).compute 1000 0.8).stake ∧
    ((PositionSizer.mk 0.35 20 0.01 0.02 0.05 0.75 0.55).compute 1000 0.8).stake ≤
      (PositionSizer.mk 0.35 20 0.01 0.02 0.05 0.75 0.55).max_stake := by
  have h := position_sizer_stake_in_range (PositionSizer.mk 0.35 20 0.01 0.02 0.05 0.75 0.55)
    1000 0.8 (by norm_num) 35 2000 (by norm_num) (by norm_num)
    (by norm_num [PositionSizer.compute])
  exact ⟨h.2.1, h.2.2.1⟩

/-! ## Theorems: trade queue backpressure (C6) -/

/-- C6: enqueueing into the capacity-3 queue already holding 3 unconsumed
intents drops the new intent (logged) without raising and leaves the queue
unchanged; `put_nowait` never suspends, so the producer is never blocked. -/
theorem trade_queue_drop_when_full (q : TQueue TradeIntent) (x : TradeIntent)
    (hcap : q.maxsize = 3) (hlen : q.items.length = 3) :
    enqueueIntent q x = (q, true) := by
  have hfull : q.full = true := by
    simp [TQueue.full, hcap, hlen]
  simp [enqueueIntent, TQueue.put_nowait, hfull]

/-- C6 witness: a concrete full queue of three intents drops the fourth. -/
theorem trade_queue_drop_when_full_witness :
    enqueueIntent
      ⟨3, [⟨"R_75", .CALL, 0.7, 1, .signal_ok, 100, none, none⟩,
           ⟨"R_75", .CALL, 0.7, 1, .signal_ok, 100, none, none⟩,
           ⟨"R_75", .CALL, 0.7, 1, .signal_ok, 100, none, none⟩], 3⟩
      ⟨"R_75", .PUT, 0.8, 2, .signal_ok, 101, none, none⟩ =
    (⟨3, [⟨"R_75", .CALL, 0.7, 1, .signal_ok, 100, none, none⟩,
          ⟨"R_75", .CALL, 0.7, 1, .signal_ok, 100, none, none⟩,
          ⟨"R_75", .CALL, 0.7, 1, .signal_ok, 100, none, none⟩], 3⟩, true) :=
  trade_queue_drop_when_full _ _ rfl rfl

/-! ## Theorems: trade worker (C1) -/

/-- C1 (refuting evaluation): kill-switch skips, risk-firewall rejections
and execution failures are indeed absorbed (the iteration returns `.ok` and
the speculative row is rolled back), but a dry-run skip calls `task_done`
both explicitly and in the `finally` block: with the consumed intent being
the only outstanding item the second call raises `ValueError`, which
escapes the worker loop and kills the worker task.  With a second
outstanding item the iteration survives but double-decrements the counter,
so the crash surfaces on a later legitimate `task_done`. -/
theorem trade_worker_dry_run_double_task_done :
    (tradeWorkerIteration ⟨false, true, true, .ok 0⟩ ⟨1, false, 0, 0⟩ = .error .valueError)
    ∧ (tradeWorkerIteration ⟨true, true, true, .ok 0⟩ ⟨1, false, 0, 0⟩ = .ok ⟨0, false, 0, 0⟩)
    ∧ (tradeWorkerIteration ⟨false, false, true, .ok 0⟩ ⟨1, false, 0, 0⟩ = .ok ⟨0, false, 0, 0⟩)
    ∧ (tradeWorkerIteration ⟨false, true, false, .error "proposal_error"⟩ ⟨1, false, 0, 0⟩ =
        .ok ⟨0, false, 0, 0⟩)
    ∧ (tradeWorkerIteration ⟨false, true, false, .ok 1⟩ ⟨1, false, 0, 0⟩ =
        .ok ⟨0, false, 0, 1⟩)
    ∧ (tradeWorkerIteration ⟨false, true, true, .ok 0⟩ ⟨2, false, 0, 0⟩ =
        .ok ⟨0, false, 0, 0⟩) :=
  ⟨rfl, rfl, rfl, rfl, rfl, rfl⟩

/-! ## Theorems: executed-trade win flag (C10) -/

/-- The poll loop only settles with `is_win` computed as `profit > 0`. -/
theorem pollContract_ok_is_win (cid : ℤ) (bp : ℚ) (polls : List PocResp) (t : ExecutedTrade)
    (h : pollContract cid bp polls = .ok t) : t.is_win = decide (0 < t.profit) := by
  induction polls with
  | nil => cases h
  | cons p rest ih =>
      cases p with
      | err => cases h
      | data d =>
          by_cases hs : d.is_sold
          · simp only [pollContract, hs, if_true] at h
            cases h
            rfl
          · simp only [pollContract, hs, if_false] at h
            exact ih h

/-- C10: every settled trade returned by `execute_rise_fall` or
`execute_multiplier` has `is_win` true exactly when the reported profit is
strictly positive; in particular a zero-profit settlement is a loss. -/
theorem executed_trade_is_win_iff (side : Side)
    (stake take_profit_usd stop_loss_usd : ℚ)
    (proposal : ProposalResp) (buy : BuyResp) (polls : List PocResp) (t : ExecutedTrade)
    (h : OrderExecutor.execute_rise_fall stake proposal buy polls = .ok t ∨
         OrderExecutor.execute_multiplier side stake take_profit_usd stop_loss_usd
           proposal buy polls = .ok t) :
    (t.is_win = true ↔ 0 < t.profit) ∧ (t.profit = 0 → t.is_win = false) := by
  have hw : t.is_win = decide (0 < t.profit) := by
    rcases h with h | h
    · unfold OrderExecutor.execute_rise_fall at h
      repeat' split at h
      all_goals first
        | cases h
        | exact pollContract_ok_is_win _ _ _ _ h
    · unfold OrderExecutor.execute_multiplier at h
      repeat' split at h
      all_goals first
        | cases h
        | exact pollContract_ok_is_win _ _ _ _ h
  constructor
  · rw [hw]
    exact decide_eq_true_iff
  · intro hz
    rw [hw, hz]
    simp

/-- C10 witness: a contract settling with profit exactly 0 is reported as a
loss. -/
theorem executed_trade_is_win_iff_witness :
    (ExecutedTrade.mk 7 0 1 0 false).is_win = false :=
  (executed_trade_is_win_iff .CALL 1 0 0 ⟨false, some 1⟩ ⟨false, some 7, some 1⟩
    [PocResp.data ⟨true, some 0, some 0⟩] ⟨7, 0, 1, 0, false⟩
    (Or.inl rfl)).2 rfl

/-! ## Theorems: reconnection backoff (C4) -/

/-- C4 counterexample: a successful connect whose session later ends with
an exception does not reset the backoff.  With zero jitter, after two
failures (backoff grown to 4) the third attempt connects (the connected
event is set) and then errors; the delay slept after it is 4, not the
initial 1, and the next delay is 8 — `backoff = 1.0` runs only when
`_connect_and_run` returns without raising. -/
theorem reconnect_backoff_no_reset_counterexample :
    runForeverDelays 60 1
      [(ConnOutcome.connectFailed, 0), (ConnOutcome.connectFailed, 0),
       (ConnOutcome.connectedThenError, 0), (ConnOutcome.connectFailed, 0)]
      = [1, 2, 4, 8] ∧ (4 : ℚ) ≠ 1 := by
  constructor
  · norm_num [runForeverDelays, min_def]
  · norm_num

/-- Delay-sequence invariant for an uninterrupted failure streak, with the
backoff generalized to any value in `[1, 60]`. -/
theorem backoff_all_fail_props (n : ℕ) (b : ℚ) (hb1 : 1 ≤ b) (hb60 : b ≤ 60) :
    (n ≠ 0 →
      (runForeverDelays 60 b (List.replicate n (ConnOutcome.connectFailed, 0))).head? = some b) ∧
    List.Chain' (fun x y => x ≤ y ∧ y ≤ 2 * x)
      (runForeverDelays 60 b (List.replicate n (ConnOutcome.connectFailed, 0))) ∧
    (∀ d ∈ runForeverDelays 60 b (List.replicate n (ConnOutcome.connectFailed, 0)), d ≤ 60) := by
  induction n generalizing b with
  | zero => simp [runForeverDelays]
  | succ n ih =>
      have hsleep : min (60 : ℚ) (b + 0 * 0.3 * b) = b := by
        rw [show b + 0 * 0.3 * b = b by ring]
        exact min_eq_right hb60
      have hb2lo : (1 : ℚ) ≤ min 60 (b * 2) := le_min (by norm_num) (by linarith)
      have hb2hi : min (60 : ℚ) (b * 2) ≤ 60 := min_le_left _ _
      have ihb := ih (min 60 (b * 2)) hb2lo hb2hi
      have hrun : runForeverDelays 60 b (List.replicate (n + 1) (ConnOutcome.connectFailed, 0)) =
          b :: runForeverDelays 60 (min 60 (b * 2))
            (List.replicate n (ConnOutcome.connectFailed, 0)) := by
        simp only [List.replicate_succ, runForeverDelays, hsleep]
      rw [hrun]
      refine ⟨fun _ => rfl, ?_, ?_⟩
      · rw [List.chain'_cons']
        refine ⟨?_, ihb.2.1⟩
        intro y hy
        rcases Nat.eq_zero_or_pos n with hn | hn
        · subst hn
          simp [runForeverDelays] at hy
        · have hhead := ihb.1 (Nat.pos_iff_ne_zero.mp hn)
          rw [hhead] at hy
          simp only [Option.mem_def, Option.some_inj] at hy
          subst hy
          have hcomm : b * 2 = 2 * b := by ring
          exact ⟨le_min hb60 (by linarith), by rw [← hcomm]; exact min_le_right _ _⟩
      · intro d hd
        rcases List.mem_cons.mp hd with hd | hd
        · subst hd; exact hb60
        · exact ihb.2.2 d hd

/-- Every slept delay is capped by 60, whatever the outcomes and jitter. -/
theorem backoff_delay_le_cap (l : List (ConnOutcome × ℚ)) (b : ℚ) :
    ∀ d ∈ runForeverDelays 60 b l, d ≤ 60 := by
  induction l generalizing b with
  | nil => simp [runForeverDelays]
  | cons p rest ih =>
      rcases p with ⟨o, r⟩
      intro d hd
      simp only [runForeverDelays, List.mem_cons] at hd
      rcases hd with hd | hd
      · subst hd; exact min_le_left _ _
      · exact ih _ d hd

/-- C4 (amended): the delay sequence starts at 1; with zero jitter an
uninterrupted failure streak satisfies `delay[n] ≤ delay[n+1] ≤
2·delay[n]`; every delay (jitter included) is at most 60; and the backoff
resets to the initial 1 after an attempt in which `_connect_and_run`
returns cleanly — but, per the counterexample, not after a mere successful
connect whose session ends by raising. -/
theorem reconnect_backoff_spec :
    (∀ n : ℕ,
      (n ≠ 0 →
        (runForeverDelays 60 1 (List.replicate n (ConnOutcome.connectFailed, 0))).head? = some 1) ∧
      List.Chain' (fun x y => x ≤ y ∧ y ≤ 2 * x)
        (runForeverDelays 60 1 (List.replicate n (ConnOutcome.connectFailed, 0))) ∧
      (∀ d ∈ runForeverDelays 60 1 (List.replicate n (ConnOutcome.connectFailed, 0)), d ≤ 60))
    ∧ (∀ (l : List (ConnOutcome × ℚ)) (b : ℚ), ∀ d ∈ runForeverDelays 60 b l, d ≤ 60)
    ∧ (∀ (b : ℚ) (rest : List (ConnOutcome × ℚ)),
        (runForeverDelays 60 b ((ConnOutcome.connectedClean, 0) :: rest)).head? = some 1) := by
  refine ⟨fun n => backoff_all_fail_props n 1 le_rfl (by norm_num), backoff_delay_le_cap, ?_⟩
  intro b rest
  simp only [runForeverDelays]
  norm_num

/-- C4 witness: three straight failures sleep 1 unit first. -/
theorem reconnect_backoff_spec_witness :
    (runForeverDelays 60 1 (List.replicate 3 (ConnOutcome.connectFailed, 0))).head? = some 1 :=
  (reconnect_backoff_spec.1 3).1 (by decide)

/-! ## Theorems: signal scorer (C7) -/

/-- C7: when every gate passes, `generate` returns the direction of the EMA
relation with reason `ok` and score equal to the spec's weighted formula
(clamped to `[0,1]`).  The spec's `zoneHalfWidth` is the code's
`max(zoneHalfWidth, 1e-9)`, so the zone is assumed at least `2e-9` wide
(true of any real configuration). -/
theorem trend_pullback_score_formula (st : TrendPullbackStrategy) (c : Candle)
    (ef es a r : ℚ)
    (hprice : 0 < c.close)
    (hne : ef ≠ es)
    (hatr : st.min_atr_pct ≤ a / c.close)
    (hspread : st.min_ema_spread_pct ≤ |ef - es| / c.close)
    (hob : es < ef → r < st.rsi_overbought)
    (hos : ef < es → st.rsi_oversold < r)
    (hzone_up : es < ef → st.rsi_long_zone.1 ≤ r ∧ r ≤ st.rsi_long_zone.2)
    (hzone_dn : ef < es → st.rsi_short_zone.1 ≤ r ∧ r ≤ st.rsi_short_zone.2)
    (hhalf_up : es < ef → (1 : ℚ)/1000000000 ≤ (st.rsi_long_zone.2 - st.rsi_long_zone.1) / 2)
    (hhalf_dn : ef < es → (1 : ℚ)/1000000000 ≤ (st.rsi_short_zone.2 - st.rsi_short_zone.1) / 2) :
    st.generate c ⟨some ef, some es, some a, some r⟩ =
      ⟨if es < ef then Side.CALL else Side.PUT,
       max 0 (min 1 (specScore st c.close ef es a r)), .signal_ok⟩ := by
  have hnp : ¬ c.close ≤ 0 := not_le.mpr hprice
  have hnatr : ¬ a / c.close < st.min_atr_pct := not_lt.mpr hatr
  have hnspread : ¬ |ef - es| / c.close < st.min_ema_spread_pct := not_lt.mpr hspread
  rcases hne.lt_or_lt with hdn | hup
  · -- downtrend: ef < es
    have hntrend : ¬¬(es < ef ∨ ef < es) := not_not_intro (Or.inr hdn)
    have hnup : ¬ es < ef := lt_asymm hdn
    have hnob : ¬(st.rsi_overbought ≤ r ∧ es < ef) := fun h => hnup h.2
    have hnos : ¬(r ≤ st.rsi_oversold ∧ ef < es) := fun h =>
      absurd h.1 (not_le.mpr (hos hdn))
    have hmem := hzone_dn hdn
    have hzh : max ((st.rsi_short_zone.2 - st.rsi_short_zone.1) / 2) (1/1000000000) =
        (st.rsi_short_zone.2 - st.rsi_short_zone.1) / 2 := max_eq_left (hhalf_dn hdn)
    have hng1 : ¬(es < ef ∧ ¬(st.rsi_short_zone.1 ≤ r ∧ r ≤ st.rsi_short_zone.2)) :=
      fun h => hnup h.1
    have hng2 : ¬(¬ es < ef ∧ ¬(st.rsi_short_zone.1 ≤ r ∧ r ≤ st.rsi_short_zone.2)) :=
      fun h => h.2 hmem
    simp only [TrendPullbackStrategy.generate, if_neg hnp, if_neg hntrend, if_neg hnatr,
      if_neg hnspread, if_neg hnob, if_neg hnos, if_neg hnup, if_neg hng1, if_neg hng2]
    unfold specScore
    rw [if_neg hnup]
    rw [hzh, mul_comm st.min_ema_spread_pct 4, mul_comm st.min_atr_pct 4]
  · -- uptrend: es < ef
    have hntrend : ¬¬(es < ef ∨ ef < es) := not_not_intro (Or.inl hup)
    have hndn : ¬ ef < es := lt_asymm hup
    have hnob : ¬(st.rsi_overbought ≤ r ∧ es < ef) := fun h =>
      absurd h.1 (not_le.mpr (hob hup))
    have hnos : ¬(r ≤ st.rsi_oversold ∧ ef < es) := fun h => hndn h.2
    have hmem := hzone_up hup
    have hzh : max ((st.rsi_long_zone.2 - st.rsi_long_zone.1) / 2) (1/1000000000) =
        (st.rsi_long_zone.2 - st.rsi_long_zone.1) / 2 := max_eq_left (hhalf_up hup)
    have hng1 : ¬(es < ef ∧ ¬(st.rsi_long_zone.1 ≤ r ∧ r ≤ st.rsi_long_zone.2)) :=
      fun h => h.2 hmem
    have hng2 : ¬(¬ es < ef ∧ ¬(st.rsi_long_zone.1 ≤ r ∧ r ≤ st.rsi_long_zone.2)) :=
      fun h => h.1 hup
    simp only [TrendPullbackStrategy.generate, if_neg hnp, if_neg hntrend, if_neg hnatr,
      if_neg hnspread, if_neg hnob, if_neg hnos, if_pos hup, if_neg hng1, if_neg hng2]
    unfold specScore
    rw [if_pos hup]
    rw [hzh, mul_comm st.min_ema_spread_pct 4, mul_comm st.min_atr_pct 4]

/-- C7 witness: the spec scenario — uptrend (fast 100.1 over slow 100 at
price 100, spread 0.1%), ATR 0.2% against floor 0.1%, RSI 52.5 centred in
the long zone `[45, 60]` — yields a CALL with score `0.675 > 0` and reason
`ok`. -/
theorem trend_pullback_score_formula_witness :
    TrendPullbackStrategy.generate ⟨0.001, 0.0005, (45, 60), (40, 55), 70, 30⟩
      ⟨"R_75", 60, 0, 100, 100, 100, 100, 1⟩
      ⟨some (1001/10), some 100, some (1/5), some (105/2)⟩ =
      ⟨Side.CALL, 27/40, .signal_ok⟩ ∧ (0 : ℚ) < 27/40 := by
  have h := trend_pullback_score_formula ⟨0.001, 0.0005, (45, 60), (40, 55), 70, 30⟩
    ⟨"R_75", 60, 0, 100, 100, 100, 100, 1⟩ (1001/10) 100 (1/5) (105/2)
    (by norm_num) (by norm_num) (by norm_num) (by norm_num [abs_of_pos])
    (fun _ => by norm_num) (fun hc => absurd hc (by norm_num))
    (fun _ => by norm_num) (fun hc => absurd hc (by norm_num))
    (fun _ => by norm_num) (fun hc => absurd hc (by norm_num))
  refine ⟨?_, by norm_num⟩
  rw [h]
  have hs : specScore ⟨0.001, 0.0005, (45, 60), (40, 55), 70, 30⟩ 100 (1001/10) 100
      (1/5) (105/2) = 27/40 := by
    unfold specScore
    rw [if_pos (by norm_num : (100 : ℚ) < 1001/10)]
    norm_num [abs_of_nonneg, min_def, max_def]
  rw [hs]
  norm_num [min_def, max_def]

/-! ## Theorems: RSI bounds (C8) -/

/-- Both running averages, when present, are nonnegative. -/
def IndicatorEngine.nonnegAvgs (e : IndicatorEngine) : Prop :=
  (∀ x, e.avg_gain = some x → 0 ≤ x) ∧ (∀ x, e.avg_loss = some x → 0 ≤ x)

/-- Wilder smoothing keeps nonnegative inputs nonnegative. -/
theorem wilderAvg_nonneg (prev : Option ℚ) (x : ℚ) (period : ℕ)
    (hprev : ∀ v, prev = some v → 0 ≤ v) (hx : 0 ≤ x) (hp : 1 ≤ period) :
    0 ≤ wilderAvg prev x period := by
  cases prev with
  | none => exact hx
  | some v =>
      have hv : 0 ≤ v := hprev v rfl
      have hp1 : (1 : ℚ) ≤ (period : ℚ) := by exact_mod_cast hp
      have hnum : 0 ≤ v * ((period : ℚ) - 1) + x :=
        add_nonneg (mul_nonneg hv (by linarith)) hx
      exact div_nonneg hnum (by linarith)

/-- The RSI formula stays in `[0,100]`, is exactly 50 during warm-up, and
is exactly 100 once warmed with zero average loss. -/
theorem rsiFromAvgs_spec (bars period : ℕ) (ag al : ℚ) (hag : 0 ≤ ag) (hal : 0 ≤ al) :
    (0 ≤ rsiFromAvgs bars period ag al ∧ rsiFromAvgs bars period ag al ≤ 100) ∧
    (bars < period → rsiFromAvgs bars period ag al = 50) ∧
    (period ≤ bars → al = 0 → rsiFromAvgs bars period ag al = 100) := by
  unfold rsiFromAvgs
  by_cases hw : bars < period
  · simp only [if_pos hw]
    exact ⟨⟨by norm_num, by norm_num⟩, fun _ => by trivial,
      fun hge _ => absurd hw (not_lt.mpr hge)⟩
  · simp only [if_neg hw]
    by_cases hz : al = 0
    · simp only [if_pos hz]
      exact ⟨⟨by norm_num, by norm_num⟩, fun hlt => absurd hlt hw, fun _ _ => by trivial⟩
    · simp only [if_neg hz]
      have halpos : 0 < al := lt_of_le_of_ne hal (Ne.symm hz)
      have hm : 0 < max al (1/1000000000000) := lt_max_of_lt_left halpos
      have hrs : 0 ≤ ag / max al (1/1000000000000) := div_nonneg hag (le_of_lt hm)
      have hden : (0 : ℚ) < 1 + ag / max al (1/1000000000000) := by linarith
      have hfrac_pos : 0 < 100 / (1 + ag / max al (1/1000000000000)) := by positivity
      have hfrac_le : 100 / (1 + ag / max al (1/1000000000000)) ≤ 100 := by
        rw [div_le_iff₀ hden]
        nlinarith
      refine ⟨⟨by linarith, by linarith⟩, fun hlt => absurd hlt hw, fun _ hzz => absurd hzz hz⟩

/-- The `Indicators` record returned by `update` carries exactly the
`rsiFromAvgs` value of the updated averages. -/
theorem IndicatorEngine.update_rsi (e : IndicatorEngine) (c : Candle) :
    (e.update c).2.rsi = some (rsiFromAvgs (e.bars + 1) e.rsi_period
      (wilderAvg e.avg_gain (max (closeChange e.prev_close c.close) 0) e.rsi_period)
      (wilderAvg e.avg_loss (max (-(closeChange e.prev_close c.close)) 0) e.rsi_period)) :=
  rfl

/-- The engine state after `update` stores the updated average loss. -/
theorem IndicatorEngine.update_avg_loss (e : IndicatorEngine) (c : Candle) :
    (e.update c).1.avg_loss =
      some (wilderAvg e.avg_loss (max (-(closeChange e.prev_close c.close)) 0) e.rsi_period) :=
  rfl

/-- `update` does not change the configured periods. -/
theorem IndicatorEngine.update_rsi_period (e : IndicatorEngine) (c : Candle) :
    (e.update c).1.rsi_period = e.rsi_period :=
  rfl

/-- `update` preserves nonnegativity of the running averages. -/
theorem IndicatorEngine.update_nonnegAvgs (e : IndicatorEngine) (c : Candle)
    (hp : 1 ≤ e.rsi_period) (h : e.nonnegAvgs) : (e.update c).1.nonnegAvgs := by
  constructor
  · intro x hx
    have : (e.update c).1.avg_gain =
        some (wilderAvg e.avg_gain (max (closeChange e.prev_close c.close) 0) e.rsi_period) :=
      rfl
    rw [this] at hx
    cases hx
    exact wilderAvg_nonneg _ _ _ h.1 (le_max_right _ _) hp
  · intro x hx
    rw [IndicatorEngine.update_avg_loss] at hx
    cases hx
    exact wilderAvg_nonneg _ _ _ h.2 (le_max_right _ _) hp

/-- `runCandles` does not change the configured RSI period. -/
theorem IndicatorEngine.runCandles_rsi_period (e : IndicatorEngine) (cs : List Candle) :
    (e.runCandles cs).rsi_period = e.rsi_period := by
  induction cs generalizing e with
  | nil => rfl
  | cons c rest ih =>
      show ((e.update c).1.runCandles rest).rsi_period = e.rsi_period
      rw [ih, IndicatorEngine.update_rsi_period]

/-- `runCandles` preserves nonnegativity of the running averages. -/
theorem IndicatorEngine.runCandles_nonnegAvgs (e : IndicatorEngine) (cs : List Candle)
    (hp : 1 ≤ e.rsi_period) (h : e.nonnegAvgs) : (e.runCandles cs).nonnegAvgs := by
  induction cs generalizing e with
  | nil => exact h
  | cons c rest ih =>
      show ((e.update c).1.runCandles rest).nonnegAvgs
      exact ih _ (by rw [IndicatorEngine.update_rsi_period]; exact hp)
        (IndicatorEngine.update_nonnegAvgs e c hp h)

/-- C8: for any candle history from a fresh engine with valid periods, the
RSI produced by the next `update` lies in `[0,100]`; it is exactly 50 while
the post-update bar count is below the RSI period, and exactly 100 once
warmed whenever the smoothed average loss is exactly 0. -/
theorem indicator_rsi_spec (fp sp ap rp : ℕ)
    (hv : (IndicatorEngine.init fp sp ap rp).validPeriods)
    (cs : List Candle) (c : Candle) (r : ℚ)
    (hr : (((IndicatorEngine.init fp sp ap rp).runCandles cs).update c).2.rsi = some r) :
    (0 ≤ r ∧ r ≤ 100) ∧
    (((IndicatorEngine.init fp sp ap rp).runCandles cs).bars + 1 < rp → r = 50) ∧
    (rp ≤ ((IndicatorEngine.init fp sp ap rp).runCandles cs).bars + 1 →
      (((IndicatorEngine.init fp sp ap rp).runCandles cs).update c).1.avg_loss = some 0 →
      r = 100) := by
  set E := (IndicatorEngine.init fp sp ap rp).runCandles cs with hE
  have hper : E.rsi_period = rp := by
    rw [hE]
    exact IndicatorEngine.runCandles_rsi_period _ _
  have hp1 : 1 ≤ E.rsi_period := by
    rw [hper]
    exact le_of_lt (lt_of_le_of_lt (by norm_num) hv.2.2.2)
  have hnn : E.nonnegAvgs := by
    rw [hE]
    refine IndicatorEngine.runCandles_nonnegAvgs _ _ ?_ ?_
    · exact le_of_lt (lt_of_le_of_lt (by norm_num) hv.2.2.2)
    · unfold IndicatorEngine.nonnegAvgs
      exact ⟨(fun _ hx => nomatch hx), (fun _ hx => nomatch hx)⟩
  have hag : 0 ≤ wilderAvg E.avg_gain (max (closeChange E.prev_close c.close) 0) E.rsi_period :=
    wilderAvg_nonneg _ _ _ hnn.1 (le_max_right _ _) hp1
  have hal : 0 ≤ wilderAvg E.avg_loss (max (-(closeChange E.prev_close c.close)) 0) E.rsi_period :=
    wilderAvg_nonneg _ _ _ hnn.2 (le_max_right _ _) hp1
  have hval := rsiFromAvgs_spec (E.bars + 1) E.rsi_period _ _ hag hal
  rw [IndicatorEngine.update_rsi] at hr
  have hrr : r = rsiFromAvgs (E.bars + 1) E.rsi_period
      (wilderAvg E.avg_gain (max (closeChange E.prev_close c.close) 0) E.rsi_period)
      (wilderAvg E.avg_loss (max (-(closeChange E.prev_close c.close)) 0) E.rsi_period) := by
    exact (Option.some_inj.mp hr).symm
  refine ⟨(by rw [hrr]; exact hval.1), ?_, ?_⟩
  · intro hwarm
    rw [hrr]
    exact hval.2.1 (by rw [hper]; exact hwarm)
  · intro hge hzero
    rw [IndicatorEngine.update_avg_loss] at hzero
    have hzz : wilderAvg E.avg_loss (max (-(closeChange E.prev_close c.close)) 0)
        E.rsi_period = 0 := Option.some_inj.mp hzero
    rw [hrr]
    exact hval.2.2 (by rw [hper]; exact hge) hzz

/-- C8 witness: with all periods 3, after two candles the engine is still
warming up and the next update reports RSI exactly 50 (hence in bounds). -/
theorem indicator_rsi_spec_witness :
    ∃ r : ℚ, (((IndicatorEngine.init 3 3 3 3).runCandles
        [⟨"R_75", 60, 0, 1, 2, 1, 2, 1⟩]).update ⟨"R_75", 60, 60, 2, 3, 2, 3, 1⟩).2.rsi =
        some r ∧ (0 ≤ r ∧ r ≤ 100) ∧ r = 50 := by
  have hv : (IndicatorEngine.init 3 3 3 3).validPeriods := by
    unfold IndicatorEngine.validPeriods
    refine ⟨?_, ?_, ?_, ?_⟩ <;> decide
  have h := indicator_rsi_spec 3 3 3 3 hv
    [⟨"R_75", 60, 0, 1, 2, 1, 2, 1⟩] ⟨"R_75", 60, 60, 2, 3, 2, 3, 1⟩ _
    (IndicatorEngine.update_rsi _ _)
  exact ⟨_, IndicatorEngine.update_rsi _ _, h.1, h.2.1 (by decide)⟩

/-! ## Theorems: candle aggregation (C2) -/

/-- The bucket a tick falls into. -/
def bucketOf (tf : ℕ) (t : Tick) : ℕ := floorTime t.epoch tf

/-- The candle OHLC invariant: `low ≤ open ≤ high` and `low ≤ close ≤ high`. -/
def candleOHLCok (c : Candle) : Prop :=
  c.low ≤ c.open_ ∧ c.open_ ≤ c.high ∧ c.low ≤ c.close ∧ c.close ≤ c.high

/-- Bucketing is monotone in the epoch. -/
theorem floorTime_mono (tf : ℕ) {a b : ℕ} (h : a ≤ b) : floorTime a tf ≤ floorTime b tf := by
  have ha := Nat.div_add_mod a tf
  have hb := Nat.div_add_mod b tf
  have hdiv : a / tf ≤ b / tf := Nat.div_le_div_right h
  have hmul : tf * (a / tf) ≤ tf * (b / tf) := Nat.mul_le_mul_left tf hdiv
  unfold floorTime
  omega

/-- `update_with_tick` on an empty slot opens a candle seeded by the tick. -/
theorem update_with_tick_none (b : CandleBuilder) (t : Tick)
    (hsym : t.symbol = b.symbol) (hc : b.current = none) :
    b.update_with_tick t =
      ({ b with current := some (Candle.mk b.symbol b.timeframe_sec
          (floorTime t.epoch b.timeframe_sec) t.price t.price t.price t.price 1) }, none) := by
  unfold CandleBuilder.update_with_tick
  rw [if_neg (not_not_intro hsym), hc]

/-- `update_with_tick` on a strictly later bucket closes the open candle
and opens a new one seeded by the tick. -/
theorem update_with_tick_newBucket (b : CandleBuilder) (t : Tick) (cur : Candle)
    (hsym : t.symbol = b.symbol) (hc : b.current = some cur)
    (hlt : cur.open_time < floorTime t.epoch b.timeframe_sec) :
    b.update_with_tick t =
      ({ b with current := some (Candle.mk b.symbol b.timeframe_sec
          (floorTime t.epoch b.timeframe_sec) t.price t.price t.price t.price 1) },
       some cur) := by
  unfold CandleBuilder.update_with_tick
  rw [if_neg (not_not_intro hsym), hc]
  simp only [if_pos hlt]

/-- `update_with_tick` inside the open bucket folds the tick in place. -/
theorem update_with_tick_sameBucket (b : CandleBuilder) (t : Tick) (cur : Candle)
    (hsym : t.symbol = b.symbol) (hc : b.current = some cur)
    (hnlt : ¬ cur.open_time < floorTime t.epoch b.timeframe_sec) :
    b.update_with_tick t =
      ({ b with current := some { cur with
          close := t.price
          high := max cur.high t.price
          low := min cur.low t.price
          volume := cur.volume + 1 } }, none) := by
  unfold CandleBuilder.update_with_tick
  rw [if_neg (not_not_intro hsym), hc]
  simp only [if_neg hnlt]

/-- `processTicks` peels from the right. -/
theorem processTicks_snoc (b : CandleBuilder) (ts : List Tick) (t : Tick) :
    processTicks b (ts ++ [t]) =
      (((processTicks b ts).1.update_with_tick t).1,
       (processTicks b ts).2 ++ ((processTicks b ts).1.update_with_tick t).2.toList) := by
  unfold processTicks
  rw [List.foldl_append]
  rfl

/-- Invariant of the builder state after processing the tick list `done`
(in non-decreasing epoch order, all for the builder's symbol): the open
candle covers the latest bucket with correct OHLC bounds and tick count,
and the emitted candles are exactly the earlier buckets, one each, in
order, with correct OHLC bounds and tick counts. -/
def builderInv (sym : String) (tf : ℕ) (done : List Tick)
    (st : CandleBuilder × List Candle) : Prop :=
  st.1.symbol = sym ∧ st.1.timeframe_sec = tf ∧
  (st.1.current = none → done = [] ∧ st.2 = []) ∧
  (∀ cur, st.1.current = some cur →
    (∃ tl ∈ done, bucketOf tf tl = cur.open_time) ∧
    (∀ t ∈ done, bucketOf tf t ≤ cur.open_time) ∧
    candleOHLCok cur ∧
    cur.volume = done.countP (fun t => decide (bucketOf tf t = cur.open_time)) ∧
    (∀ c ∈ st.2, candleOHLCok c ∧
      c.volume = done.countP (fun t => decide (bucketOf tf t = c.open_time))) ∧
    (st.2.map Candle.open_time).Pairwise (· < ·) ∧
    (∀ bkt, bkt ∈ st.2.map Candle.open_time ↔
      (bkt ∈ done.map (bucketOf tf) ∧ bkt < cur.open_time)))

/-- One step preserves the builder invariant when the new tick carries the
builder's symbol and does not precede any processed tick. -/
theorem builderInv_step (sym : String) (tf : ℕ) (done : List Tick)
    (st : CandleBuilder × List Candle) (t : Tick)
    (hInv : builderInv sym tf done st) (hsymt : t.symbol = sym)
    (hmono : ∀ t' ∈ done, t'.epoch ≤ t.epoch) :
    builderInv sym tf (done ++ [t])
      ((st.1.update_with_tick t).1, st.2 ++ ((st.1.update_with_tick t).2).toList) := by
  obtain ⟨hbsym, hbtf, hnone, hsome⟩ := hInv
  subst hbsym
  subst hbtf
  have hsym' : t.symbol = st.1.symbol := hsymt
  rcases hc : st.1.current with _ | cur
  · -- first tick: open the first candle
    obtain ⟨hd, he⟩ := hnone hc
    subst hd
    rw [update_with_tick_none st.1 t hsym' hc, he]
    simp only [Option.toList, List.nil_append, List.append_nil]
    refine ⟨rfl, rfl, (fun habs => nomatch habs), ?_⟩
    intro cur2 hcur2
    injection hcur2 with heq
    subst heq
    refine ⟨⟨t, List.mem_singleton_self t, rfl⟩, ?_, ⟨le_refl _, le_refl _, le_refl _, le_refl _⟩,
      ?_, ?_, ?_, ?_⟩
    · intro t' ht'
      rw [List.mem_singleton.mp ht']
      exact le_refl _
    · simp [bucketOf]
    · intro c hcm
      exact absurd hcm (List.not_mem_nil c)
    · exact List.Pairwise.nil
    · intro bkt
      constructor
      · intro hm
        exact absurd hm (List.not_mem_nil bkt)
      · rintro ⟨hm, hblt⟩
        rcases List.mem_map.mp hm with ⟨a, ham, hab⟩
        rw [List.mem_singleton.mp ham] at hab
        rw [← hab] at hblt
        exact absurd hblt (lt_irrefl _)
  · -- an open candle exists
    obtain ⟨⟨tl, htlm, htlb⟩, hmax, hohlc, hvol, hemit, hpw, hiff⟩ := hsome cur hc
    have hle : cur.open_time ≤ bucketOf st.1.timeframe_sec t := by
      rw [← htlb]
      exact floorTime_mono _ (hmono tl htlm)
    by_cases hlt : cur.open_time < floorTime t.epoch st.1.timeframe_sec
    · -- strictly later bucket: emit `cur`, open a fresh candle
      rw [update_with_tick_newBucket st.1 t cur hsym' hc hlt]
      simp only [Option.toList]
      refine ⟨rfl, rfl, (fun habs => nomatch habs), ?_⟩
      intro cur2 hcur2
      injection hcur2 with heq
      subst heq
      refine ⟨⟨t, List.mem_append_right _ (List.mem_singleton_self t), rfl⟩, ?_,
        ⟨le_refl _, le_refl _, le_refl _, le_refl _⟩, ?_, ?_, ?_, ?_⟩
      · intro t' ht'
        rcases List.mem_append.mp ht' with h | h
        · exact le_trans (hmax t' h) (le_of_lt hlt)
        · rw [List.mem_singleton.mp h]
          exact le_refl _
      · -- the fresh candle holds exactly the one tick of its bucket
        rw [List.countP_append]
        have hz : done.countP
            (fun t' => decide (bucketOf st.1.timeframe_sec t' =
              floorTime t.epoch st.1.timeframe_sec)) = 0 := by
          rw [List.countP_eq_zero]
          intro a ha
          simp only [decide_eq_true_eq]
          intro habs
          have := hmax a ha
          omega
        rw [hz]
        simp [bucketOf]
      · -- emitted candles: old ones keep their counts, `cur` is finalized
        intro c hcm
        rcases List.mem_append.mp hcm with h | h
        · have hco : c.open_time < cur.open_time :=
            ((hiff c.open_time).mp (List.mem_map_of_mem Candle.open_time h)).2
          refine ⟨(hemit c h).1, ?_⟩
          rw [List.countP_append, (hemit c h).2]
          have hz : List.countP
              (fun t' => decide (bucketOf st.1.timeframe_sec t' = c.open_time)) [t] = 0 := by
            simp only [List.countP_cons, List.countP_nil, decide_eq_true_eq]
            have : bucketOf st.1.timeframe_sec t = floorTime t.epoch st.1.timeframe_sec := rfl
            rw [if_neg]
            omega
          omega
        · rw [List.mem_singleton.mp h]
          refine ⟨hohlc, ?_⟩
          rw [List.countP_append, hvol]
          have hz : List.countP
              (fun t' => decide (bucketOf st.1.timeframe_sec t' = cur.open_time)) [t] = 0 := by
            simp only [List.countP_cons, List.countP_nil, decide_eq_true_eq]
            rw [if_neg]
            have : bucketOf st.1.timeframe_sec t = floorTime t.epoch st.1.timeframe_sec := rfl
            omega
          omega
      · -- emitted open times stay strictly increasing
        rw [List.map_append]
        simp only [List.map_cons, List.map_nil]
        rw [List.pairwise_append]
        refine ⟨hpw, List.pairwise_singleton _ _, ?_⟩
        intro a ha b hb
        rcases List.mem_map.mp ha with ⟨c, hcm, hca⟩
        rw [List.mem_singleton.mp hb]
        rw [← hca]
        exact ((hiff c.open_time).mp (List.mem_map_of_mem Candle.open_time hcm)).2
      · -- emitted buckets are exactly the pre-final ones
        intro bkt
        rw [List.map_append, List.mem_append, List.map_append, List.mem_append]
        simp only [List.map_cons, List.map_nil]
        constructor
        · rintro (hm | hm)
          · have hold := (hiff bkt).mp hm
            exact ⟨Or.inl hold.1, lt_trans hold.2 hlt⟩
          · rw [List.mem_singleton.mp hm]
            refine ⟨Or.inl (List.mem_map.mpr ⟨tl, htlm, htlb⟩), hlt⟩
        · rintro ⟨hm | hm, hblt⟩
          · have hbb : bkt ≤ cur.open_time := by
              rcases List.mem_map.mp hm with ⟨a, ham, hab⟩
              rw [← hab]
              exact hmax a ham
            rcases lt_or_eq_of_le hbb with hbb | hbb
            · exact Or.inl ((hiff bkt).mpr ⟨hm, hbb⟩)
            · refine Or.inr ?_
              rw [List.mem_singleton, hbb]
          · rw [List.mem_singleton.mp hm] at hblt
            exact absurd hblt (lt_irrefl _)
    · -- same bucket: fold the tick into the open candle
      have hbeq : bucketOf st.1.timeframe_sec t = cur.open_time :=
        le_antisymm (not_lt.mp hlt) hle
      rw [update_with_tick_sameBucket st.1 t cur hsym' hc hlt]
      simp only [Option.toList, List.append_nil]
      refine ⟨rfl, rfl, (fun habs => nomatch habs), ?_⟩
      intro cur2 hcur2
      injection hcur2 with heq
      subst heq
      refine ⟨⟨tl, List.mem_append_left _ htlm, htlb⟩, ?_, ?_, ?_, ?_, hpw, ?_⟩
      · intro t' ht'
        rcases List.mem_append.mp ht' with h | h
        · exact hmax t' h
        · rw [List.mem_singleton.mp h]
          exact le_of_eq hbeq
      · exact ⟨le_trans (min_le_left _ _) hohlc.1,
          le_trans hohlc.2.1 (le_max_left _ _),
          min_le_right _ _, le_max_right _ _⟩
      · rw [List.countP_append, hvol]
        have ho : List.countP
            (fun t' => decide (bucketOf st.1.timeframe_sec t' = cur.open_time)) [t] = 1 := by
          simp only [List.countP_cons, List.countP_nil, decide_eq_true_eq]
          rw [if_pos hbeq]
        rw [ho]
      · intro c hcm
        have hco : c.open_time < cur.open_time :=
          ((hiff c.open_time).mp (List.mem_map_of_mem Candle.open_time hcm)).2
        refine ⟨(hemit c hcm).1, ?_⟩
        rw [List.countP_append, (hemit c hcm).2]
        have hz : List.countP
            (fun t' => decide (bucketOf st.1.timeframe_sec t' = c.open_time)) [t] = 0 := by
          simp only [List.countP_cons, List.countP_nil, decide_eq_true_eq]
          rw [if_neg]
          omega
        omega
      · intro bkt
        rw [List.map_append, List.mem_append]
        constructor
        · intro hm
          have hold := (hiff bkt).mp hm
          exact ⟨Or.inl hold.1, hold.2⟩
        · rintro ⟨hm | hm, hblt⟩
          · exact (hiff bkt).mpr ⟨hm, hblt⟩
          · rcases List.mem_map.mp hm with ⟨a, ham, hab⟩
            rw [List.mem_singleton.mp ham] at hab
            rw [← hab, hbeq] at hblt
            exact absurd hblt (lt_irrefl _)

/-- The invariant holds after processing any in-order tick list from a
fresh builder. -/
theorem builderInv_processTicks (sym : String) (tf : ℕ) (ts : List Tick)
    (hmono : ts.Pairwise (fun a b => a.epoch ≤ b.epoch))
    (hsym : ∀ t ∈ ts, t.symbol = sym) :
    builderInv sym tf ts (processTicks (CandleBuilder.init sym tf) ts) := by
  induction ts using List.reverseRecOn with
  | nil =>
      exact ⟨rfl, rfl, (fun _ => ⟨rfl, rfl⟩), (fun cur hcur => nomatch hcur)⟩
  | append_singleton ts t ih =>
      have hsplit := List.pairwise_append.mp hmono
      have hm' : ts.Pairwise (fun a b => a.epoch ≤ b.epoch) := hsplit.1
      have hlast : ∀ t' ∈ ts, t'.epoch ≤ t.epoch :=
        fun t' ht' => hsplit.2.2 t' ht' t (List.mem_singleton_self t)
      have hsym' : ∀ t' ∈ ts, t'.symbol = sym :=
        fun t' ht' => hsym t' (List.mem_append_left _ ht')
      rw [processTicks_snoc]
      exact builderInv_step sym tf ts _ t (ih hm' hsym')
        (hsym t (List.mem_append_right _ (List.mem_singleton_self t))) hlast

/-- Folding with a non-empty accumulator only prepends to the output. -/
theorem processTicks_acc (ts : List Tick) (b : CandleBuilder) (l : List Candle) :
    ts.foldl
      (fun acc t =>
        let r := CandleBuilder.update_with_tick acc.1 t
        (r.1, acc.2 ++ r.2.toList))
      (b, l) =
    ((processTicks b ts).1, l ++ (processTicks b ts).2) := by
  induction ts generalizing b l with
  | nil => simp [processTicks]
  | cons t rest ih =>
      have h1 := ih ((b.update_with_tick t).1) ((b.update_with_tick t).2.toList)
      have hR : processTicks b (t :: rest) =
          ((processTicks (b.update_with_tick t).1 rest).1,
           (b.update_with_tick t).2.toList ++ (processTicks (b.update_with_tick t).1 rest).2) := by
        unfold processTicks
        rw [List.foldl_cons]
        exact h1
      have h2 := ih ((b.update_with_tick t).1) (l ++ (b.update_with_tick t).2.toList)
      rw [List.foldl_cons, hR]
      exact h2.trans (by rw [List.append_assoc])

/-- `processTicks` peels from the left. -/
theorem processTicks_cons (b : CandleBuilder) (t : Tick) (ts : List Tick) :
    processTicks b (t :: ts) =
      ((processTicks (b.update_with_tick t).1 ts).1,
       (b.update_with_tick t).2.toList ++ (processTicks (b.update_with_tick t).1 ts).2) := by
  unfold processTicks
  simp only [List.foldl_cons]
  exact processTicks_acc ts _ _

/-- A tick with a foreign symbol leaves the builder unchanged. -/
theorem update_with_tick_wrongSymbol (b : CandleBuilder) (t : Tick)
    (h : t.symbol ≠ b.symbol) : b.update_with_tick t = (b, none) := by
  unfold CandleBuilder.update_with_tick
  rw [if_pos h]

/-- One update keeps the OHLC bounds of the open candle and only ever
closes a candle that had them — no ordering assumption. -/
theorem update_with_tick_ohlc (b : CandleBuilder) (t : Tick)
    (hcur : ∀ c, b.current = some c → candleOHLCok c) :
    (∀ c, (b.update_with_tick t).1.current = some c → candleOHLCok c) ∧
    (∀ c, (b.update_with_tick t).2 = some c → candleOHLCok c) := by
  by_cases hsy : t.symbol = b.symbol
  · rcases hc : b.current with _ | cur
    · rw [update_with_tick_none b t hsy hc]
      refine ⟨?_, ?_⟩
      · intro c hcc
        injection hcc with heq
        subst heq
        exact ⟨le_refl _, le_refl _, le_refl _, le_refl _⟩
      · intro c hcc
        cases hcc
    · have hook := hcur cur hc
      by_cases hlt : cur.open_time < floorTime t.epoch b.timeframe_sec
      · rw [update_with_tick_newBucket b t cur hsy hc hlt]
        refine ⟨?_, ?_⟩
        · intro c hcc
          injection hcc with heq
          subst heq
          exact ⟨le_refl _, le_refl _, le_refl _, le_refl _⟩
        · intro c hcc
          injection hcc with heq
          subst heq
          exact hook
      · rw [update_with_tick_sameBucket b t cur hsy hc hlt]
        refine ⟨?_, ?_⟩
        · intro c hcc
          injection hcc with heq
          subst heq
          exact ⟨le_trans (min_le_left _ _) hook.1, le_trans hook.2.1 (le_max_left _ _),
            min_le_right _ _, le_max_right _ _⟩
        · intro c hcc
          cases hcc
  · rw [update_with_tick_wrongSymbol b t hsy]
    refine ⟨hcur, ?_⟩
    intro c hcc
    cases hcc

/-- Every candle ever emitted satisfies the OHLC bounds, for any tick
sequence (ordering plays no role here). -/
theorem processTicks_ohlc (ts : List Tick) (b : CandleBuilder)
    (hcur : ∀ c, b.current = some c → candleOHLCok c) :
    (∀ c ∈ (processTicks b ts).2, candleOHLCok c) ∧
    (∀ c, (processTicks b ts).1.current = some c → candleOHLCok c) := by
  induction ts generalizing b with
  | nil =>
      exact ⟨(fun c hc => absurd hc (List.not_mem_nil c)), hcur⟩
  | cons t rest ih =>
      rw [processTicks_cons]
      have hu := update_with_tick_ohlc b t hcur
      have hrest := ih ((b.update_with_tick t).1) hu.1
      refine ⟨?_, hrest.2⟩
      intro c hcm
      rcases List.mem_append.mp hcm with h | h
      · rcases ho : (b.update_with_tick t).2 with _ | c2
        · rw [ho] at h
          exact absurd h (List.not_mem_nil c)
        · rw [ho] at h
          rw [List.mem_singleton.mp h]
          exact hu.2 c2 ho
      · exact hrest.1 c h

/-- C2 counterexample (claim as stated, over arbitrary tick sequences): an
out-of-order tick whose bucket is older than the open candle's is silently
folded into the open candle.  With ticks at epochs 120, 0, 180 (timeframe
60), the single emitted candle (bucket 120) has volume 2 although only one
tick was observed in bucket 120, and the completed bucket 0 never gets a
candle. -/
theorem candle_builder_volume_counterexample :
    (processTicks (CandleBuilder.init "R_75" 60)
        [⟨"R_75", 120, 5⟩, ⟨"R_75", 0, 7⟩, ⟨"R_75", 180, 9⟩]).2 =
      [⟨"R_75", 60, 120, 5, 7, 5, 7, 2⟩] ∧
    ([⟨"R_75", 120, 5⟩, ⟨"R_75", 0, 7⟩, ⟨"R_75", 180, 9⟩] : List Tick).countP
        (fun t => decide (bucketOf 60 t = 120)) = 1 ∧
    (2 : ℕ) ≠ 1 ∧
    ((0 : ℕ) ∉ (processTicks (CandleBuilder.init "R_75" 60)
        [⟨"R_75", 120, 5⟩, ⟨"R_75", 0, 7⟩, ⟨"R_75", 180, 9⟩]).2.map Candle.open_time) ∧
    (∃ t ∈ ([⟨"R_75", 120, 5⟩, ⟨"R_75", 0, 7⟩, ⟨"R_75", 180, 9⟩] : List Tick),
        bucketOf 60 t = 0) ∧
    (∃ t ∈ ([⟨"R_75", 120, 5⟩, ⟨"R_75", 0, 7⟩, ⟨"R_75", 180, 9⟩] : List Tick),
        0 < bucketOf 60 t) := by
  decide

/-- C2 (amended): every emitted candle satisfies `low ≤ open ≤ high` and
`low ≤ close ≤ high` for any tick sequence; and when the ticks arrive in
non-decreasing epoch order, every emitted candle's volume equals the number
of ticks observed in its bucket and exactly one candle is emitted per
completed bucket (the emitted open times are strictly increasing and are
precisely the buckets that contain a tick and are followed by a tick in a
later bucket). -/
theorem candle_builder_spec (sym : String) (tf : ℕ) (_htf : 0 < tf) (ts : List Tick)
    (hsym : ∀ t ∈ ts, t.symbol = sym) :
    (∀ c ∈ (processTicks (CandleBuilder.init sym tf) ts).2, candleOHLCok c) ∧
    (ts.Pairwise (fun a b => a.epoch ≤ b.epoch) →
      (∀ c ∈ (processTicks (CandleBuilder.init sym tf) ts).2,
        c.volume = ts.countP (fun t => decide (bucketOf tf t = c.open_time))) ∧
      ((processTicks (CandleBuilder.init sym tf) ts).2.map Candle.open_time).Pairwise (· < ·) ∧
      (∀ bkt : ℕ,
        bkt ∈ (processTicks (CandleBuilder.init sym tf) ts).2.map Candle.open_time ↔
          ((∃ t ∈ ts, bucketOf tf t = bkt) ∧ (∃ t ∈ ts, bkt < bucketOf tf t)))) := by
  constructor
  · exact (processTicks_ohlc ts (CandleBuilder.init sym tf) (fun c hc => nomatch hc)).1
  · intro hmono
    have hinv := builderInv_processTicks sym tf ts hmono hsym
    obtain ⟨hbsym, hbtf, hnone, hsome⟩ := hinv
    rcases hcc : (processTicks (CandleBuilder.init sym tf) ts).1.current with _ | cur
    · obtain ⟨hd, he⟩ := hnone hcc
      subst hd
      rw [he]
      refine ⟨(fun c hc => absurd hc (List.not_mem_nil c)), List.Pairwise.nil, ?_⟩
      intro bkt
      simp
    · obtain ⟨⟨tl, htlm, htlb⟩, hmax, _hohlc, _hvol, hemit, hpw, hiff⟩ := hsome cur hcc
      refine ⟨(fun c hc => (hemit c hc).2), hpw, ?_⟩
      intro bkt
      rw [hiff bkt]
      constructor
      · rintro ⟨hm, hblt⟩
        rcases List.mem_map.mp hm with ⟨a, ham, hab⟩
        exact ⟨⟨a, ham, hab⟩, ⟨tl, htlm, by rw [htlb]; exact hblt⟩⟩
      · rintro ⟨⟨a, ham, hab⟩, ⟨u, hum, hub⟩⟩
        refine ⟨List.mem_map.mpr ⟨a, ham, hab⟩, ?_⟩
        exact lt_of_lt_of_le hub (hmax u hum)

/-- C2 witness: two in-order ticks in consecutive buckets emit exactly the
first bucket's candle with volume 1 and valid OHLC bounds. -/
theorem candle_builder_spec_witness :
    (∀ c ∈ (processTicks (CandleBuilder.init "R_75" 60)
        [⟨"R_75", 0, 5⟩, ⟨"R_75", 60, 6⟩]).2, candleOHLCok c) ∧
    (∀ c ∈ (processTicks (CandleBuilder.init "R_75" 60)
        [⟨"R_75", 0, 5⟩, ⟨"R_75", 60, 6⟩]).2,
      c.volume = ([⟨"R_75", 0, 5⟩, ⟨"R_75", 60, 6⟩] : List Tick).countP
        (fun t => decide (bucketOf 60 t = c.open_time))) := by
  have h := candle_builder_spec "R_75" 60 (by norm_num)
    [⟨"R_75", 0, 5⟩, ⟨"R_75", 60, 6⟩] (by decide)
  exact ⟨h.1, (h.2 (by decide)).1⟩

end Innova
